import Mathlib

/-!
Verification of the review acquisition and normalization engine in src/app.py
(ShopeeReviewScraper).  The definitions below are a shallow embedding of the
relevant Python functions: parse_review (normalizer), fetch_reviews_api
(API pager), parse_review_element's rating computation, and the analytics
computed by analyze_reviews and main (mean rating, rating distribution via
value_counts, daily trend, keyword sentiment counts).
-/

/-- Nested entry of the raw record's detailed_rating list
(rating_data.get('detailed_rating')[i], a dict with an optional comment key). -/
structure DetailedRating where
  comment : Option String
deriving DecidableEq

/-- Nested entry of the raw record's product_items list
(a dict with an optional model_name key). -/
structure ProductItem where
  model_name : Option String
deriving DecidableEq

/-- Nested seller_reply object of the raw record (a dict with an optional
comment key).  A present object is modelled as some; Python dict truthiness
for a present-but-empty dict is not distinguished (well-formed payloads carry
a non-empty dict or nothing). -/
structure SellerReply where
  comment : Option String
deriving DecidableEq

/-- A well-formed raw review record as consumed by
ShopeeReviewScraper.parse_review (src/app.py lines 259-315): every field the
function reads, each optional (Python dict.get with a default). -/
structure RawRecord where
  author_username : Option String
  author_portrait : Option String
  cmtid : Option String
  rating_star : Option Int
  comment : Option String
  detailed_rating : Option (List DetailedRating)
  ctime : Option Int
  product_items : Option (List ProductItem)
  seller_reply : Option SellerReply
  like_count : Option Int
  images : Option (List String)
deriving DecidableEq

/-- The canonical review dict built by parse_review / parse_review_element:
keys username, time, rating, comment, variation, seller_response, like_count,
images_count, source. -/
structure Review where
  username : String
  time : String
  rating : Int
  comment : String
  variation : String
  seller_response : String
  like_count : Int
  images_count : Nat
  source : String
deriving DecidableEq

/-- Embeds the Python str.split(sep) primitive on a single-character
separator, over the character sequence of the string: Python guarantees the
result is non-empty, with ''.split(sep) equal to ['']. -/
def splitOnChar (sep : Char) : List Char → List (List Char)
  | [] => [[]]
  | c :: cs =>
    let r := splitOnChar sep cs
    if c = sep then [] :: r
    else
      match r with
      | [] => [[c]]
      | g :: gs => (c :: g) :: gs

/-- Embeds rating_data.get('author_portrait', '').split('/')[-1].split('.')[0]
from src/app.py line 265: last path segment of the portrait reference, cut at
the first dot. -/
def portraitSegment (portrait : String) : String :=
  String.mk ((splitOnChar '.' ((splitOnChar '/' portrait.toList).getLastD [])).headD [])

/-- Embeds the Python format spec :04d for a non-negative value: decimal
digits left-padded with zeros to a minimum width of 4. -/
def padZero4 (n : Nat) : String :=
  let s := toString n
  String.mk (List.replicate (4 - s.length) '0') ++ s

/-- Embeds ShopeeReviewScraper.parse_review (src/app.py lines 259-315).
The Python hash builtin and the local-time formatter
datetime.fromtimestamp(...).strftime('%Y-%m-%d %H:%M') are environment
dependent, so they are passed in as parameters h and fmt; fmt returns none
when the conversion raises (the inner except at line 284, which falls back to
str(ctime)).  For well-formed input the try body always completes, so the
function always returns some review; the outer except branch (return None) is
unreachable on RawRecord. -/
def parse_review (h : String → Int) (fmt : Int → Option String) (r : RawRecord) :
    Option Review :=
  let u0 := r.author_username.getD ""
  let u1 := if u0 = "" ∨ u0 = "null" then portraitSegment (r.author_portrait.getD "") else u0
  let username :=
    if u1 = "" ∨ u1.length < 2 then
      "用户_" ++ padZero4 ((h (r.cmtid.getD "") % 10000).toNat)
    else u1
  let rating := r.rating_star.getD 0
  let c0 := r.comment.getD ""
  let comment :=
    if c0 = "" ∨ c0 = "null" then
      match r.detailed_rating with
      | some (d :: _) => d.comment.getD ""
      | _ => ""
    else c0
  let ctime := r.ctime.getD 0
  let time := if ctime ≠ 0 then (fmt ctime).getD (toString ctime) else "未知时间"
  let items := r.product_items.getD [ProductItem.mk none]
  let variation :=
    match items with
    | [] => ""
    | i :: _ => i.model_name.getD ""
  let seller_response :=
    match r.seller_reply with
    | some sr => sr.comment.getD ""
    | none => ""
  let like_count := r.like_count.getD 0
  let images_count := (r.images.getD []).length
  some { username := username, time := time, rating := rating, comment := comment,
         variation := variation, seller_response := seller_response,
         like_count := like_count, images_count := images_count, source := "api" }

/-- Embeds the rating computation of parse_review_element (src/app.py lines
329-330): stars = text.count of the star glyph; rating = stars if 1 <= stars
<= 5 else 5. -/
def selenium_rating (stars : Nat) : Nat :=
  if 1 ≤ stars ∧ stars ≤ 5 then stars else 5

/-- All-absent raw record: every optional field missing. -/
def rNone : RawRecord :=
  ⟨none, none, none, none, none, none, none, none, none, none, none⟩

/-- A constant stand-in for the Python hash builtin, used in concrete runs. -/
def hashC : String → Int := fun _ => 7

/-- A stand-in time formatter that always fails to convert. -/
def fmtC : Int → Option String := fun _ => none

/-- One transport-level page response as seen by fetch_reviews_api: the HTTP
status code, whether the JSON payload carries a truthy error field, and the
payload's data.ratings list. -/
structure PageResponse where
  status : Nat
  error : Bool
  ratings : List RawRecord
deriving DecidableEq

/-- Outcome of one page request in fetch_reviews_api: either a transport-level
response, or a raised request exception (the except branch at line 191). -/
inductive PageResult where
  | ok (resp : PageResponse)
  | exn
deriving DecidableEq

/-- Embeds the while loop of ShopeeReviewScraper.fetch_reviews_api
(src/app.py lines 146-193).  The remote server is modelled as the function
pages, giving the outcome of the n-th request issued; offset starts at 0 and
advances by the fixed batch_size 20; acc is all_reviews so far and reqs the
number of requests already issued.  The result pairs the final all_reviews
list with the total number of requests issued.  Branches, in source order:
non-success status breaks (line 189), a truthy error payload breaks (line
165), an empty ratings list breaks (line 170), otherwise every rating is
passed to parse_review and truthy results are appended (lines 172-175), and a
raised request exception breaks (line 193). -/
def fetchLoop (h : String → Int) (f : Int → Option String) (pages : Nat → PageResult)
    (limit : Nat) (offset : Nat) (acc : List Review) (reqs : Nat) : List Review × Nat :=
  if _hlt : offset < limit then
    match pages reqs with
    | PageResult.exn => (acc, reqs + 1)
    | PageResult.ok resp =>
      if resp.status = 200 then
        if resp.error then (acc, reqs + 1)
        else if resp.ratings = [] then (acc, reqs + 1)
        else
          fetchLoop h f pages limit (offset + 20)
            (acc ++ resp.ratings.filterMap (parse_review h f)) (reqs + 1)
      else (acc, reqs + 1)
  else (acc, reqs)
termination_by limit - offset
decreasing_by omega

/-- Embeds ShopeeReviewScraper.fetch_reviews_api (src/app.py lines 131-201):
runs the pagination loop from offset 0 with an empty all_reviews list. -/
def fetch_reviews_api (h : String → Int) (f : Int → Option String)
    (pages : Nat → PageResult) (limit : Nat) : List Review × Nat :=
  fetchLoop h f pages limit 0 [] 0

/-- A page outcome that lets the loop continue: HTTP 200, no error payload,
non-empty ratings. -/
def goodPage : PageResult → Prop
  | PageResult.exn => False
  | PageResult.ok resp => resp.status = 200 ∧ resp.error = false ∧ resp.ratings ≠ []

instance : DecidablePred goodPage := fun p =>
  match p with
  | PageResult.exn => inferInstanceAs (Decidable False)
  | PageResult.ok resp =>
      inferInstanceAs (Decidable (resp.status = 200 ∧ resp.error = false ∧ resp.ratings ≠ []))

/-- A successful page whose ratings list is empty: the end-of-data break. -/
def emptyOkPage : PageResult → Prop
  | PageResult.exn => False
  | PageResult.ok resp => resp.status = 200 ∧ resp.error = false ∧ resp.ratings = []

instance : DecidablePred emptyOkPage := fun p =>
  match p with
  | PageResult.exn => inferInstanceAs (Decidable False)
  | PageResult.ok resp =>
      inferInstanceAs (Decidable (resp.status = 200 ∧ resp.error = false ∧ resp.ratings = []))

/-- A failed page request: a raised exception, a non-success HTTP status, or
an explicit error payload. -/
def failPage : PageResult → Prop
  | PageResult.exn => True
  | PageResult.ok resp => resp.status ≠ 200 ∨ resp.error = true

instance : DecidablePred failPage := fun p =>
  match p with
  | PageResult.exn => inferInstanceAs (Decidable True)
  | PageResult.ok resp => inferInstanceAs (Decidable (resp.status ≠ 200 ∨ resp.error = true))

/-- The reviews a single page outcome contributes to all_reviews when the
loop accepts it. -/
def pageReviews (h : String → Int) (f : Int → Option String) : PageResult → List Review
  | PageResult.exn => []
  | PageResult.ok resp => resp.ratings.filterMap (parse_review h f)

/-- The reviews contributed by the k pages starting at request index start. -/
def collected (h : String → Int) (f : Int → Option String) (pages : Nat → PageResult) :
    Nat → Nat → List Review
  | _, 0 => []
  | start, k + 1 => pageReviews h f (pages start) ++ collected h f pages (start + 1) k

/-- Number of raw records in a page outcome's ratings list. -/
def ratingsLen : PageResult → Nat
  | PageResult.exn => 0
  | PageResult.ok resp => resp.ratings.length

/-- Embeds analysis['avg_rating'] = reviews_df['rating'].mean() from
src/app.py line 372: the plain arithmetic mean over every rating value in the
set, as an exact rational. -/
def avg_rating (rs : List Review) : ℚ :=
  ((rs.map fun r => (r.rating : ℚ)).sum) / (rs.length : ℚ)

/-- Embeds analysis['rating_distribution'] =
reviews_df['rating'].value_counts() from src/app.py line 375: the number of
reviews carrying the rating value v.  The pandas Series produced by
value_counts has an entry for v exactly when this count is non-zero. -/
def rating_distribution (rs : List Review) (v : Int) : Nat :=
  (rs.filter fun r => r.rating == v).length

/-- Embeds the daily-trend computation executed in main (src/app.py lines
514-515 and 563-565): each review's time string goes through
pd.to_datetime(errors='coerce') followed by .dt.date, modelled by the
parameter pdate (none = NaT); the trend is rendered only when not all entries
are NaT, and value_counts of the date column drops NaT entries, so the count
for a day d is the number of reviews whose time parses to d. -/
def daily_trend (pdate : String → Option String) (rs : List Review) :
    Option (String → Nat) :=
  if rs.all fun r => (pdate r.time).isNone then none
  else some fun d => (rs.filter fun r => pdate r.time == some d).length

/-- The fixed positive keyword list of src/app.py line 389. -/
def positive_words : List String :=
  ["bagus", "baik", "mantap", "puas", "recommended", "suka", "senang", "glowing", "cerah"]

/-- The fixed negative keyword list of src/app.py line 390. -/
def negative_words : List String :=
  ["jelek", "buruk", "kecewa", "tidak", "gagal", "rusak", "palsu"]

/-- Embeds Python str.lower() as a character sequence (per-character lower
casing, adequate for the keyword alphabet in use). -/
def lowerChars (s : String) : List Char :=
  s.toList.map Char.toLower

/-- Character-list prefix test, the building block of the Python substring
operator. -/
def isPrefixChars : List Char → List Char → Bool
  | [], _ => true
  | _ :: _, [] => false
  | a :: as, b :: bs => a == b && isPrefixChars as bs

/-- Embeds the Python substring operator needle in hay over character
sequences: some suffix of hay starts with needle. -/
def isSubChars (needle : List Char) : List Char → Bool
  | [] => needle.isEmpty
  | c :: t => isPrefixChars needle (c :: t) || isSubChars needle t

/-- Embeds the Python membership test word.lower() in x.lower() from
src/app.py lines 393 and 396: case-insensitive substring containment. -/
def containsKeyword (word x : String) : Bool :=
  isSubChars (lowerChars word) (lowerChars x)

/-- Embeds the positive_score column (src/app.py lines 392-394): the number
of positive keywords occurring in the comment. -/
def positive_score (x : String) : Nat :=
  (positive_words.filter fun w => containsKeyword w x).length

/-- Embeds the negative_score column (src/app.py lines 395-397). -/
def negative_score (x : String) : Nat :=
  (negative_words.filter fun w => containsKeyword w x).length

/-- Embeds analysis['positive_count'] = (reviews_df['positive_score'] > 0).sum()
from src/app.py line 399: the number of reviews with at least one positive hit. -/
def positive_count (rs : List Review) : Nat :=
  (rs.filter fun r => decide (0 < positive_score r.comment)).length

/-- Embeds analysis['negative_count'] (src/app.py line 400). -/
def negative_count (rs : List Review) : Nat :=
  (rs.filter fun r => decide (0 < negative_score r.comment)).length

/-- Review fixture with a given rating and comment. -/
def mkRev (rating : Int) (comment : String) : Review :=
  ⟨"u", "2024-01-01 10:00", rating, comment, "", "", 0, 0, "api"⟩

/-- Review fixture with a given time string. -/
def mkRevT (t : String) : Review :=
  ⟨"u", t, 5, "", "", "", 0, 0, "api"⟩

/-- The spec's example set with ratings 5, 4, 3. -/
def ex543 : List Review := [mkRev 5 "", mkRev 4 "", mkRev 3 ""]

/-- The spec's example set with ratings 5, 4, 3, 0. -/
def ex5430 : List Review := [mkRev 5 "", mkRev 4 "", mkRev 3 "", mkRev 0 ""]

/-- A concrete date parser: exactly one time string is parsable. -/
def pdC : String → Option String :=
  fun s => if s = "2024-01-01 10:00" then some "2024-01-01" else none

/-- A review set in which exactly one of the two timestamps parses under pdC. -/
def exMixed : List Review := [mkRevT "2024-01-01 10:00", mkRevT "garbage"]

/-- Raw record violating the spec's 0-5 rating and non-negative like-count
ranges. -/
def rBad : RawRecord :=
  { rNone with rating_star := some 6, like_count := some (-1) }

lemma fetchLoop_done (h : String → Int) (f : Int → Option String)
    (pages : Nat → PageResult) (limit offset : Nat) (acc : List Review) (reqs : Nat)
    (hge : ¬ offset < limit) :
    fetchLoop h f pages limit offset acc reqs = (acc, reqs) := by
  rw [fetchLoop]
  simp [hge]

lemma fetchLoop_stop_step (h : String → Int) (f : Int → Option String)
    (pages : Nat → PageResult) (limit offset : Nat) (acc : List Review) (reqs : Nat)
    (hlt : offset < limit) (hbad : ¬ goodPage (pages reqs)) :
    fetchLoop h f pages limit offset acc reqs = (acc, reqs + 1) := by
  rw [fetchLoop]
  cases hp : pages reqs with
  | exn => simp [hlt]
  | ok resp =>
    rw [hp] at hbad
    simp only [goodPage] at hbad
    by_cases h200 : resp.status = 200
    · by_cases herr : resp.error
      · simp [hlt, h200, herr]
      · have hrat : resp.ratings = [] := by
          by_contra hne
          exact hbad ⟨h200, by simpa using herr, hne⟩
        simp [hlt, h200, herr, hrat]
    · simp [hlt, h200]

lemma fetchLoop_good_step (h : String → Int) (f : Int → Option String)
    (pages : Nat → PageResult) (limit offset : Nat) (acc : List Review) (reqs : Nat)
    (resp : PageResponse) (hlt : offset < limit) (hp : pages reqs = PageResult.ok resp)
    (hg : goodPage (PageResult.ok resp)) :
    fetchLoop h f pages limit offset acc reqs =
      fetchLoop h f pages limit (offset + 20)
        (acc ++ resp.ratings.filterMap (parse_review h f)) (reqs + 1) := by
  obtain ⟨h200, herr, hrat⟩ := hg
  conv_lhs => rw [fetchLoop]
  simp [hlt, hp, h200, herr, hrat]

lemma fetchLoop_stops_after (h : String → Int) (f : Int → Option String)
    (pages : Nat → PageResult) (limit : Nat) :
    ∀ (k offset : Nat) (acc : List Review) (reqs : Nat),
      (∀ j, j < k → goodPage (pages (reqs + j))) →
      ¬ goodPage (pages (reqs + k)) →
      offset + 20 * k < limit →
      fetchLoop h f pages limit offset acc reqs =
        (acc ++ collected h f pages reqs k, reqs + k + 1) := by
  intro k
  induction k with
  | zero =>
    intro offset acc reqs _ hbad hlt
    rw [Nat.add_zero] at hbad
    rw [fetchLoop_stop_step h f pages limit offset acc reqs (by omega) hbad]
    simp [collected]
  | succ k ih =>
    intro offset acc reqs hg hbad hlt
    have hg0 : goodPage (pages reqs) := by
      have h0 := hg 0 (by omega)
      simpa using h0
    obtain ⟨resp, hp⟩ : ∃ resp, pages reqs = PageResult.ok resp := by
      cases hpp : pages reqs with
      | ok resp => exact ⟨resp, rfl⟩
      | exn =>
        rw [hpp] at hg0
        exact absurd hg0 (by simp [goodPage])
    rw [fetchLoop_good_step h f pages limit offset acc reqs resp (by omega) hp (hp ▸ hg0)]
    rw [ih (offset + 20) (acc ++ resp.ratings.filterMap (parse_review h f)) (reqs + 1)
      (fun j hj => by
        have hr := hg (j + 1) (by omega)
        have he : reqs + (j + 1) = reqs + 1 + j := by omega
        rwa [he] at hr)
      (by
        have he : reqs + (k + 1) = reqs + 1 + k := by omega
        rwa [he] at hbad)
      (by omega)]
    have hc : collected h f pages reqs (k + 1) =
        resp.ratings.filterMap (parse_review h f) ++ collected h f pages (reqs + 1) k := by
      simp [collected, hp, pageReviews]
    rw [hc]
    simp [List.append_assoc]
    omega

lemma fetchLoop_count_le (h : String → Int) (f : Int → Option String)
    (pages : Nat → PageResult) (limit : Nat) :
    ∀ (n offset : Nat) (acc : List Review) (reqs : Nat), limit - offset ≤ 20 * n →
      (fetchLoop h f pages limit offset acc reqs).2 ≤ reqs + n := by
  intro n
  induction n with
  | zero =>
    intro offset acc reqs hn
    rw [fetchLoop_done h f pages limit offset acc reqs (by omega)]
    show reqs ≤ reqs + 0
    omega
  | succ n ih =>
    intro offset acc reqs hn
    by_cases hlt : offset < limit
    · by_cases hgd : goodPage (pages reqs)
      · obtain ⟨resp, hp⟩ : ∃ resp, pages reqs = PageResult.ok resp := by
          cases hpp : pages reqs with
          | ok resp => exact ⟨resp, rfl⟩
          | exn =>
            rw [hpp] at hgd
            exact absurd hgd (by simp [goodPage])
        rw [fetchLoop_good_step h f pages limit offset acc reqs resp hlt hp (hp ▸ hgd)]
        have hb := ih (offset + 20) (acc ++ resp.ratings.filterMap (parse_review h f))
          (reqs + 1) (by omega)
        omega
      · rw [fetchLoop_stop_step h f pages limit offset acc reqs hlt hgd]
        show reqs + 1 ≤ reqs + (n + 1)
        omega
    · rw [fetchLoop_done h f pages limit offset acc reqs hlt]
      show reqs ≤ reqs + (n + 1)
      omega

lemma fetchLoop_len_le (h : String → Int) (f : Int → Option String)
    (pages : Nat → PageResult) (limit : Nat) (hlen : ∀ j, ratingsLen (pages j) ≤ 20) :
    ∀ (n offset : Nat) (acc : List Review) (reqs : Nat), limit - offset ≤ 20 * n →
      (fetchLoop h f pages limit offset acc reqs).1.length ≤ acc.length + 20 * n := by
  intro n
  induction n with
  | zero =>
    intro offset acc reqs hn
    rw [fetchLoop_done h f pages limit offset acc reqs (by omega)]
    show acc.length ≤ acc.length + 20 * 0
    omega
  | succ n ih =>
    intro offset acc reqs hn
    by_cases hlt : offset < limit
    · by_cases hgd : goodPage (pages reqs)
      · obtain ⟨resp, hp⟩ : ∃ resp, pages reqs = PageResult.ok resp := by
          cases hpp : pages reqs with
          | ok resp => exact ⟨resp, rfl⟩
          | exn =>
            rw [hpp] at hgd
            exact absurd hgd (by simp [goodPage])
        rw [fetchLoop_good_step h f pages limit offset acc reqs resp hlt hp (hp ▸ hgd)]
        have hb := ih (offset + 20) (acc ++ resp.ratings.filterMap (parse_review h f))
          (reqs + 1) (by omega)
        have hr : resp.ratings.length ≤ 20 := by
          have := hlen reqs
          rwa [hp] at this
        have hfm : (resp.ratings.filterMap (parse_review h f)).length ≤ resp.ratings.length :=
          List.length_filterMap_le _ _
        rw [List.length_append] at hb
        omega
      · rw [fetchLoop_stop_step h f pages limit offset acc reqs hlt hgd]
        show acc.length ≤ acc.length + 20 * (n + 1)
        omega
    · rw [fetchLoop_done h f pages limit offset acc reqs hlt]
      show acc.length ≤ acc.length + 20 * (n + 1)
      omega

lemma fetchLoop_full_len (h : String → Int) (f : Int → Option String)
    (pages : Nat → PageResult) (limit : Nat)
    (hgood : ∀ j, goodPage (pages j))
    (hplen : ∀ j, (pageReviews h f (pages j)).length = 20) :
    ∀ (n offset : Nat) (acc : List Review) (reqs : Nat), limit - offset ≤ 20 * n →
      (fetchLoop h f pages limit offset acc reqs).1.length =
        acc.length + ((limit - offset + 19) / 20) * 20 := by
  intro n
  induction n with
  | zero =>
    intro offset acc reqs hn
    rw [fetchLoop_done h f pages limit offset acc reqs (by omega)]
    show acc.length = acc.length + ((limit - offset + 19) / 20) * 20
    have hz : limit - offset = 0 := by omega
    rw [hz]
    norm_num
  | succ n ih =>
    intro offset acc reqs hn
    by_cases hlt : offset < limit
    · obtain ⟨resp, hp⟩ : ∃ resp, pages reqs = PageResult.ok resp := by
        cases hpp : pages reqs with
        | ok resp => exact ⟨resp, rfl⟩
        | exn =>
          have := hgood reqs
          rw [hpp] at this
          exact absurd this (by simp [goodPage])
      rw [fetchLoop_good_step h f pages limit offset acc reqs resp hlt hp
        (hp ▸ hgood reqs)]
      have hb := ih (offset + 20) (acc ++ resp.ratings.filterMap (parse_review h f))
        (reqs + 1) (by omega)
      have hpl : (resp.ratings.filterMap (parse_review h f)).length = 20 := by
        have := hplen reqs
        rwa [hp, pageReviews] at this
      rw [List.length_append, hpl] at hb
      rw [hb]
      have hd : 0 < limit - offset := by omega
      omega
    · rw [fetchLoop_done h f pages limit offset acc reqs hlt]
      show acc.length = acc.length + ((limit - offset + 19) / 20) * 20
      have hz : limit - offset = 0 := by omega
      rw [hz]
      norm_num

lemma length_filterMap_parse (h : String → Int) (f : Int → Option String)
    (l : List RawRecord) : (l.filterMap (parse_review h f)).length = l.length := by
  induction l with
  | nil => simp
  | cons a t ih => simp [List.filterMap_cons, parse_review, ih]

/-- Server fixture for the pager: one non-empty page followed by empty pages. -/
def pagesC1 : Nat → PageResult :=
  fun k => if k = 0 then PageResult.ok ⟨200, false, [rNone]⟩
           else PageResult.ok ⟨200, false, []⟩

/-- Server fixture for the pager: one non-empty page, then request exceptions. -/
def pagesC8 : Nat → PageResult :=
  fun k => if k = 0 then PageResult.ok ⟨200, false, [rNone]⟩ else PageResult.exn

/-- C1: for every limit > 0, fetch_reviews_api issues at most ceil(limit/20)
page requests (offset starts at 0 and advances by the fixed page size 20 per
accepted page), and it stops immediately after the first successful page
whose ratings list is empty, issuing exactly k+1 requests when the first
empty page is the k-th, even though its offset 20k is still below the
limit. -/
theorem api_pager_bound_and_empty_stop (h : String → Int) (f : Int → Option String)
    (pages : Nat → PageResult) (limit : Nat) (hpos : 0 < limit) :
    (fetch_reviews_api h f pages limit).2 ≤ (limit + 19) / 20 ∧
    ∀ k, (∀ j, j < k → goodPage (pages j)) → emptyOkPage (pages k) →
      20 * k < limit → (fetch_reviews_api h f pages limit).2 = k + 1 := by
  constructor
  · have hb := fetchLoop_count_le h f pages limit ((limit + 19) / 20) 0 [] 0 (by omega)
    simpa [fetch_reviews_api] using hb
  · intro k hg hempty hk
    have hbad : ¬ goodPage (pages k) := by
      cases hp : pages k with
      | exn => simp [goodPage]
      | ok resp =>
        rw [hp] at hempty
        intro hgd
        exact hgd.2.2 hempty.2.2
    have hres := fetchLoop_stops_after h f pages limit k 0 [] 0
      (fun j hj => by simpa using hg j hj) (by simpa using hbad) (by omega)
    have hpair : fetch_reviews_api h f pages limit =
        ([] ++ collected h f pages 0 k, 0 + k + 1) := by
      rw [fetch_reviews_api, hres]
    rw [hpair]
    simp

/-- Witness for api_pager_bound_and_empty_stop: limit 50, a server whose
second page is empty. -/
theorem api_pager_bound_and_empty_stop_witness :
    0 < 50 ∧
    ((fetch_reviews_api hashC fmtC pagesC1 50).2 ≤ (50 + 19) / 20 ∧
     ∀ k, (∀ j, j < k → goodPage (pagesC1 j)) → emptyOkPage (pagesC1 k) →
       20 * k < 50 → (fetch_reviews_api hashC fmtC pagesC1 50).2 = k + 1) :=
  ⟨by decide, api_pager_bound_and_empty_stop hashC fmtC pagesC1 50 (by decide)⟩

/-- C8: when the k-th page request fails (raised exception, non-success HTTP
status, or explicit error payload) after k successful non-empty pages, the
pager stops at once with exactly k+1 requests issued (no retry of the failed
page) and returns exactly the reviews collected from the k pages completed
before the failure. -/
theorem api_pager_failure_keeps_partial (h : String → Int) (f : Int → Option String)
    (pages : Nat → PageResult) (limit k : Nat)
    (hg : ∀ j, j < k → goodPage (pages j)) (hfail : failPage (pages k))
    (hk : 20 * k < limit) :
    fetch_reviews_api h f pages limit = (collected h f pages 0 k, k + 1) := by
  have hbad : ¬ goodPage (pages k) := by
    cases hp : pages k with
    | exn => simp [goodPage]
    | ok resp =>
      rw [hp] at hfail
      intro hgd
      rcases hfail with hs | he
      · exact hs hgd.1
      · exact absurd he (by simp [hgd.2.1])
  have hres := fetchLoop_stops_after h f pages limit k 0 [] 0
    (fun j hj => by simpa using hg j hj) (by simpa using hbad) (by omega)
  rw [fetch_reviews_api, hres]
  simp

/-- Witness for api_pager_failure_keeps_partial: limit 50, one good page,
then an exception. -/
theorem api_pager_failure_keeps_partial_witness :
    (∀ j, j < 1 → goodPage (pagesC8 j)) ∧ failPage (pagesC8 1) ∧ 20 * 1 < 50 ∧
    fetch_reviews_api hashC fmtC pagesC8 50 = (collected hashC fmtC pagesC8 0 1, 1 + 1) :=
  ⟨by decide, by decide, by decide,
   api_pager_failure_keeps_partial hashC fmtC pagesC8 50 1 (by decide) (by decide) (by decide)⟩

/-- Server fixture: every page is a full page of 20 records. -/
def pagesFull : Nat → PageResult :=
  fun _ => PageResult.ok ⟨200, false, List.replicate 20 rNone⟩

/-- C10: the pager enforces the limit only on the starting offset, never on
the number of returned records.  With every page carrying at most 20 records
the result has at most ceil(limit/20)*20 records; and for every limit that is
not a multiple of 20 there is a server behaviour (all pages full) for which
the result reaches ceil(limit/20)*20 records, strictly more than the limit:
the final accepted page is taken whole, with no truncation at the limit. -/
theorem api_pager_no_limit_truncation :
    (∀ (h : String → Int) (f : Int → Option String) (pages : Nat → PageResult)
        (limit : Nat), (∀ j, ratingsLen (pages j) ≤ 20) →
      (fetch_reviews_api h f pages limit).1.length ≤ ((limit + 19) / 20) * 20) ∧
    (∀ (h : String → Int) (f : Int → Option String) (limit : Nat), limit % 20 ≠ 0 →
      ∃ pages : Nat → PageResult,
        (fetch_reviews_api h f pages limit).1.length = ((limit + 19) / 20) * 20 ∧
        limit < (fetch_reviews_api h f pages limit).1.length) := by
  constructor
  · intro h f pages limit hlen
    have hb := fetchLoop_len_le h f pages limit hlen ((limit + 19) / 20) 0 [] 0 (by omega)
    rw [fetch_reviews_api]
    simp only [List.length_nil] at hb
    omega
  · intro h f limit hmod
    refine ⟨pagesFull, ?_, ?_⟩
    · have hgood : ∀ j, goodPage (pagesFull j) := by
        intro j
        simp [pagesFull, goodPage]
      have hplen : ∀ j, (pageReviews h f (pagesFull j)).length = 20 := by
        intro j
        simp [pagesFull, pageReviews, length_filterMap_parse]
      have hfl := fetchLoop_full_len h f pagesFull limit hgood hplen
        ((limit + 19) / 20) 0 [] 0 (by omega)
      rw [fetch_reviews_api]
      simpa using hfl
    · have hgood : ∀ j, goodPage (pagesFull j) := by
        intro j
        simp [pagesFull, goodPage]
      have hplen : ∀ j, (pageReviews h f (pagesFull j)).length = 20 := by
        intro j
        simp [pagesFull, pageReviews, length_filterMap_parse]
      have hfl := fetchLoop_full_len h f pagesFull limit hgood hplen
        ((limit + 19) / 20) 0 [] 0 (by omega)
      rw [fetch_reviews_api]
      simp only [List.length_nil, Nat.zero_add, Nat.sub_zero] at hfl
      rw [hfl]
      omega

/-- Witness for api_pager_no_limit_truncation at limit 30: the bound holds
for the all-full server, and some server makes the pager return more than 30
records. -/
theorem api_pager_no_limit_truncation_witness :
    ((∀ j, ratingsLen (pagesFull j) ≤ 20) ∧
      (fetch_reviews_api hashC fmtC pagesFull 30).1.length ≤ ((30 + 19) / 20) * 20) ∧
    (30 % 20 ≠ 0 ∧ ∃ pages : Nat → PageResult,
      (fetch_reviews_api hashC fmtC pages 30).1.length = ((30 + 19) / 20) * 20 ∧
      30 < (fetch_reviews_api hashC fmtC pages 30).1.length) :=
  ⟨⟨fun j => by simp [pagesFull, ratingsLen],
    api_pager_no_limit_truncation.1 hashC fmtC pagesFull 30
      (fun j => by simp [pagesFull, ratingsLen])⟩,
   ⟨by decide, api_pager_no_limit_truncation.2 hashC fmtC 30 (by decide)⟩⟩

lemma rating_distribution_eq_count (rs : List Review) (v : Int) :
    rating_distribution rs v = (rs.map fun r => r.rating).count v := by
  induction rs with
  | nil => simp [rating_distribution]
  | cons a t ih =>
    by_cases hv : a.rating = v
    · simp only [rating_distribution, List.filter_cons, List.map_cons, List.count_cons] at *
      simp [hv, ih, eq_comm]
    · have hv2 : ¬ (v = a.rating) := fun hh => hv hh.symm
      simp only [rating_distribution, List.filter_cons, List.map_cons, List.count_cons] at *
      simp [hv, hv2, ih]

/-- C2 counterexample: summarizing ratings [5,4,3,0], the value_counts
distribution carries an entry for rating 0 with count 1; the claim says the
distribution has no entry for 0. -/
theorem rating_distribution_includes_zero :
    rating_distribution ex5430 0 = 1 ∧ ¬ rating_distribution ex5430 0 = 0 := by
  decide

/-- C2 amended: value_counts counts every integer rating value present, 0
included: the distribution count for v is the number of occurrences of v
among the ratings, and summarizing ratings [5,4,3,0] yields the distribution
with entries 5, 4, 3 and 0, each of count 1, and no other entries. -/
theorem rating_distribution_counts_all_values :
    (∀ (rs : List Review) (v : Int),
      rating_distribution rs v = (rs.map fun r => r.rating).count v) ∧
    rating_distribution ex5430 5 = 1 ∧ rating_distribution ex5430 4 = 1 ∧
    rating_distribution ex5430 3 = 1 ∧ rating_distribution ex5430 0 = 1 ∧
    ∀ v : Int, rating_distribution ex5430 v ≠ 0 → v = 5 ∨ v = 4 ∨ v = 3 ∨ v = 0 := by
  refine ⟨rating_distribution_eq_count, by decide, by decide, by decide, by decide, ?_⟩
  intro v hv
  rw [rating_distribution_eq_count] at hv
  have hmem : v ∈ (ex5430.map fun r => r.rating) := by
    by_contra hnm
    exact hv (List.count_eq_zero.mpr hnm)
  simpa [ex5430, mkRev] using hmem

/-- Witness for rating_distribution_counts_all_values: the no-other-entries
part applied at the concrete value 7. -/
theorem rating_distribution_counts_all_values_witness :
    rating_distribution ex5430 5 ≠ 0 ∧ ((5 : Int) = 5 ∨ (5 : Int) = 4 ∨ (5 : Int) = 3 ∨ (5 : Int) = 0) :=
  ⟨by decide, rating_distribution_counts_all_values.2.2.2.2.2 5 (by decide)⟩

/-- C4: avg_rating is the plain arithmetic mean over every present rating
value: for a non-empty set the mean times the count equals the sum of all
ratings with 0 included; the spec example [5,4,3] averages to exactly 4, and
[5,4,3,0] averages to 3 (the 0 is averaged in, not dropped). -/
theorem avg_rating_is_plain_mean (rs : List Review) (hne : rs ≠ []) :
    avg_rating rs * (rs.length : ℚ) = (rs.map fun r => (r.rating : ℚ)).sum ∧
    avg_rating ex543 = 4 ∧ avg_rating ex5430 = 3 := by
  refine ⟨?_, ?_, ?_⟩
  · have hlen : (rs.length : ℚ) ≠ 0 := by
      have : rs.length ≠ 0 := fun hz => hne (List.length_eq_zero.mp hz)
      exact_mod_cast this
    rw [avg_rating, div_mul_cancel₀ _ hlen]
  · norm_num [avg_rating, ex543, mkRev]
  · norm_num [avg_rating, ex5430, mkRev]

/-- Witness for avg_rating_is_plain_mean at the concrete set ex543. -/
theorem avg_rating_is_plain_mean_witness :
    ex543 ≠ [] ∧
    (avg_rating ex543 * (ex543.length : ℚ) = (ex543.map fun r => (r.rating : ℚ)).sum ∧
     avg_rating ex543 = 4 ∧ avg_rating ex5430 = 3) :=
  ⟨by decide, avg_rating_is_plain_mean ex543 (by decide)⟩

/-- C3 counterexample: in the set exMixed the second timestamp fails to
parse under pdC, yet the daily trend is present; the claim says a single
parse failure makes the trend entirely absent. -/
theorem daily_trend_partial_counterexample :
    (daily_trend pdC exMixed).isSome = true ∧
    ¬ ∀ r ∈ exMixed, (pdC r.time).isSome = true := by
  decide

/-- C3 amended: the daily trend is present iff at least one timestamp in the
set parses (unparsable entries become NaT under errors='coerce' and are
dropped by value_counts, not fatal), and when present it is computed over the
parsable subset only: in exMixed one timestamp fails to parse yet the trend
is present and counts the single parsable day. -/
theorem daily_trend_present_iff_any_parses :
    (∀ (pdate : String → Option String) (rs : List Review),
      (daily_trend pdate rs).isSome = true ↔ ∃ r ∈ rs, (pdate r.time).isSome = true) ∧
    ∃ g, daily_trend pdC exMixed = some g ∧ g "2024-01-01" = 1 ∧ g "garbage" = 0 := by
  constructor
  · intro pdate rs
    rw [daily_trend]
    by_cases hall : rs.all fun r => (pdate r.time).isNone
    · rw [if_pos hall]
      simp only [Option.isSome_none, Bool.false_eq_true, false_iff]
      intro ⟨r, hr, hs⟩
      have hn := List.all_eq_true.mp hall r hr
      rw [Option.isNone_iff_eq_none] at hn
      rw [hn] at hs
      exact Bool.false_ne_true hs
    · rw [if_neg hall]
      simp only [Option.isSome_some, true_iff]
      have hne : ∃ r ∈ rs, ¬ ((pdate r.time).isNone = true) := by
        by_contra hno
        push_neg at hno
        exact hall (List.all_eq_true.mpr fun r hr => hno r hr)
      obtain ⟨r, hr, hn⟩ := hne
      refine ⟨r, hr, ?_⟩
      cases hpo : pdate r.time with
      | none => exact absurd (by rw [hpo]; rfl) hn
      | some d => rfl
  · exact ⟨_, rfl, by decide, by decide⟩

lemma score_pos_iff_keyword (words : List String) (x : String) :
    0 < (words.filter fun w => containsKeyword w x).length ↔
      ∃ w ∈ words, containsKeyword w x = true := by
  rw [List.length_pos]
  constructor
  · intro hne
    obtain ⟨w, hw⟩ := List.exists_mem_of_ne_nil _ hne
    have hm := List.mem_filter.mp hw
    exact ⟨w, hm.1, hm.2⟩
  · intro ⟨w, hw, hcw⟩
    exact List.ne_nil_of_mem (List.mem_filter.mpr ⟨hw, hcw⟩)

/-- C6: each review adds exactly 1 to positive_count when any positive
keyword occurs case-insensitively in its comment and 0 otherwise, regardless
of how many keywords match, and likewise for negative_count; one review may
count toward both sides.  Concretely, the comment "Produk BAGUS sekali" has
exactly one positive hit and adds exactly 1, and a comment with three
positive hits and one negative hit still adds exactly 1 to each side. -/
theorem sentiment_counts_reviews_not_hits :
    (∀ (r : Review) (rs : List Review),
      positive_count (r :: rs) =
        (if ∃ w ∈ positive_words, containsKeyword w r.comment = true then 1 else 0) +
          positive_count rs) ∧
    (∀ (r : Review) (rs : List Review),
      negative_count (r :: rs) =
        (if ∃ w ∈ negative_words, containsKeyword w r.comment = true then 1 else 0) +
          negative_count rs) ∧
    positive_score "Produk BAGUS sekali" = 1 ∧
    positive_count [mkRev 5 "Produk BAGUS sekali"] = 1 ∧
    positive_score "bagus dan mantap, puas tapi tidak awet" = 3 ∧
    negative_score "bagus dan mantap, puas tapi tidak awet" = 1 ∧
    positive_count [mkRev 5 "bagus dan mantap, puas tapi tidak awet"] = 1 ∧
    negative_count [mkRev 5 "bagus dan mantap, puas tapi tidak awet"] = 1 := by
  refine ⟨?_, ?_, by decide, by decide, by decide, by decide, by decide, by decide⟩
  · intro r rs
    rw [positive_count, positive_count, List.filter_cons]
    by_cases hex : ∃ w ∈ positive_words, containsKeyword w r.comment = true
    · have hpos : 0 < positive_score r.comment :=
        (score_pos_iff_keyword positive_words r.comment).mpr hex
      simp [hpos, hex]
      omega
    · have hz : ¬ 0 < positive_score r.comment := fun hpos =>
        hex ((score_pos_iff_keyword positive_words r.comment).mp hpos)
      simp [hz, hex]
  · intro r rs
    rw [negative_count, negative_count, List.filter_cons]
    by_cases hex : ∃ w ∈ negative_words, containsKeyword w r.comment = true
    · have hpos : 0 < negative_score r.comment :=
        (score_pos_iff_keyword negative_words r.comment).mpr hex
      simp [hpos, hex]
      omega
    · have hz : ¬ 0 < negative_score r.comment := fun hpos =>
        hex ((score_pos_iff_keyword negative_words r.comment).mp hpos)
      simp [hz, hex]

/-- C7: parse_review is total over well-formed raw records: whatever subset
of the optional fields is absent, it returns a review (there is no input in
RawRecord on which the per-record exception handler fires, so a record can
never abort the surrounding page loop). -/
theorem parse_review_total (h : String → Int) (f : Int → Option String)
    (r : RawRecord) : ∃ rev : Review, parse_review h f r = some rev :=
  ⟨_, rfl⟩

lemma parse_review_username_synth (h : String → Int) (f : Int → Option String)
    (r : RawRecord)
    (h1 : r.author_username.getD "" = "" ∨ r.author_username.getD "" = "null")
    (h2 : (portraitSegment (r.author_portrait.getD "")).length < 2) :
    (parse_review h f r).map Review.username =
      some ("用户_" ++ padZero4 ((h (r.cmtid.getD "") % 10000).toNat)) := by
  simp only [parse_review, Option.map_some]
  rw [if_pos h1, if_pos (Or.inr h2)]
  rfl

/-- C5 counterexample: the synthesized username prefix in the code is the
Chinese string written 用户_ rather than the claimed "user_": on an
all-absent record with a hash returning 7, the produced username is
"用户_0007", which is not "user_" followed by the padded hash value. -/
theorem username_prefix_counterexample :
    (parse_review hashC fmtC rNone).map Review.username = some "用户_0007" ∧
    (parse_review hashC fmtC rNone).map Review.username ≠
      some ("user_" ++ padZero4 ((hashC (rNone.cmtid.getD "") % 10000).toNat)) := by
  decide

/-- C5 amended: when the primary username field is absent, empty or the
"null" marker and the portrait path segment is unusable (shorter than 2
characters), parse_review synthesizes the username as the prefix 用户_ (the
source's Chinese rendering of "user_") followed by hash(cmtid) mod 10000
zero-padded to 4 digits, and the synthesis is deterministic for a fixed
cmtid within one run (one hash function). -/
theorem username_synthesis_deterministic (h : String → Int) (f : Int → Option String)
    (r : RawRecord)
    (h1 : r.author_username.getD "" = "" ∨ r.author_username.getD "" = "null")
    (h2 : (portraitSegment (r.author_portrait.getD "")).length < 2) :
    (parse_review h f r).map Review.username =
      some ("用户_" ++ padZero4 ((h (r.cmtid.getD "") % 10000).toNat)) ∧
    ∀ r2 : RawRecord,
      r2.author_username.getD "" = "" ∨ r2.author_username.getD "" = "null" →
      (portraitSegment (r2.author_portrait.getD "")).length < 2 →
      r2.cmtid = r.cmtid →
      (parse_review h f r2).map Review.username = (parse_review h f r).map Review.username := by
  refine ⟨parse_review_username_synth h f r h1 h2, ?_⟩
  intro r2 g1 g2 gc
  rw [parse_review_username_synth h f r h1 h2, parse_review_username_synth h f r2 g1 g2, gc]

/-- Witness for username_synthesis_deterministic at the all-absent record. -/
theorem username_synthesis_deterministic_witness :
    ((rNone.author_username.getD "" = "" ∨ rNone.author_username.getD "" = "null") ∧
     (portraitSegment (rNone.author_portrait.getD "")).length < 2) ∧
    ((parse_review hashC fmtC rNone).map Review.username =
        some ("用户_" ++ padZero4 ((hashC (rNone.cmtid.getD "") % 10000).toNat)) ∧
     ∀ r2 : RawRecord,
       r2.author_username.getD "" = "" ∨ r2.author_username.getD "" = "null" →
       (portraitSegment (r2.author_portrait.getD "")).length < 2 →
       r2.cmtid = rNone.cmtid →
       (parse_review hashC fmtC r2).map Review.username =
         (parse_review hashC fmtC rNone).map Review.username) :=
  ⟨⟨by decide, by decide⟩,
   username_synthesis_deterministic hashC fmtC rNone (by decide) (by decide)⟩

/-- Embeds Python str.strip(): drops leading and trailing whitespace from a
character sequence. -/
def stripChars (l : List Char) : List Char :=
  ((l.dropWhile Char.isWhitespace).reverse.dropWhile Char.isWhitespace).reverse

/-- Embeds the match of re.search applied to the anchored pattern of one or
more characters other than a star and a newline, in parse_review_element
(src/app.py line 325): the maximal leading run of such characters; the
pattern matches exactly when this run is non-empty. -/
def leadingRun (text : String) : List Char :=
  text.toList.takeWhile fun c => !(c == '*' || c == '\n')

/-- Embeds the username extraction of parse_review_element (src/app.py lines
325-326): the stripped match group when the pattern matches, else the
fallback 匿名用户 (anonymous user). -/
def selenium_username (text : String) : String :=
  if leadingRun text = [] then "匿名用户" else String.mk (stripChars (leadingRun text))

lemma prefixed_ne_empty (s : String) : "用户_" ++ s ≠ "" := by
  intro heq
  have hd := congrArg String.data heq
  rw [String.data_append] at hd
  simp at hd

/-- C9 counterexample: neither acquisition path upholds all the claimed
data-model constraints.  API path: parse_review passes the raw rating and
like count through without validation, so the record rBad with rating_star 6
and like_count -1 yields a review whose rating is 6, outside the claimed
0..5 range, and whose like count is -1, below the claimed 0 floor.  Browser
path: on an element text whose leading non-star run is a single space, the
match succeeds and strip() empties it, so parse_review_element produces an
empty username. -/
theorem review_invariants_counterexample :
    (parse_review hashC fmtC rBad).map Review.rating = some 6 ∧
    ¬ ((6 : Int) ≤ 5) ∧
    (parse_review hashC fmtC rBad).map Review.like_count = some (-1) ∧
    ¬ ((0 : Int) ≤ -1) ∧
    selenium_username " *x" = "" := by
  decide

/-- C9 amended: on the API path, parse_review copies rating_star and
like_count through unvalidated, so the canonical range constraints hold
exactly when the raw values satisfy them: when the raw rating (default 0)
lies in 0..5 and the raw like count (default 0) is non-negative, every
produced review has a non-empty username, a rating in 0..5, a non-negative
like count, a non-negative image count, and source "api".  On the browser
path the rating (selenium_rating) is unconditionally in 1..5, and the
username (selenium_username) is non-empty except exactly when the element
text's leading non-star run is non-empty yet strips to nothing: it is
non-empty whenever the pattern does not match (fallback 匿名用户) or the
stripped match group is non-empty. -/
theorem review_invariants_amended (h : String → Int) (f : Int → Option String)
    (r : RawRecord) (hr0 : 0 ≤ r.rating_star.getD 0) (hr5 : r.rating_star.getD 0 ≤ 5)
    (hl : 0 ≤ r.like_count.getD 0) :
    (∀ rev : Review, parse_review h f r = some rev →
      rev.username ≠ "" ∧ 0 ≤ rev.rating ∧ rev.rating ≤ 5 ∧
      0 ≤ rev.like_count ∧ 0 ≤ (rev.images_count : Int) ∧ rev.source = "api") ∧
    (∀ s : Nat, 1 ≤ selenium_rating s ∧ selenium_rating s ≤ 5) ∧
    (∀ text : String, leadingRun text = [] ∨ stripChars (leadingRun text) ≠ [] →
      selenium_username text ≠ "") := by
  refine ⟨?_, ?_, ?_⟩
  · intro rev hrev
    simp only [parse_review, Option.some.injEq] at hrev
    subst hrev
    refine ⟨?_, hr0, hr5, hl, Int.natCast_nonneg _, rfl⟩
    · split
      · split
        · exact prefixed_ne_empty _
        · next hcond => exact fun heq => hcond (Or.inl heq)
      · split
        · exact prefixed_ne_empty _
        · next hcond => exact fun heq => hcond (Or.inl heq)
  · intro s
    rw [selenium_rating]
    split
    · next hc => omega
    · next hc => omega
  · intro text hcond
    rw [selenium_username]
    by_cases hm : leadingRun text = []
    · rw [if_pos hm]
      decide
    · rw [if_neg hm]
      rcases hcond with hc | hc
      · exact absurd hc hm
      · intro heq
        exact hc (congrArg String.data heq)

/-- Witness for review_invariants_amended at the all-absent record. -/
theorem review_invariants_amended_witness :
    (0 ≤ rNone.rating_star.getD 0 ∧ rNone.rating_star.getD 0 ≤ 5 ∧
     0 ≤ rNone.like_count.getD 0) ∧
    ((∀ rev : Review, parse_review hashC fmtC rNone = some rev →
        rev.username ≠ "" ∧ 0 ≤ rev.rating ∧ rev.rating ≤ 5 ∧
        0 ≤ rev.like_count ∧ 0 ≤ (rev.images_count : Int) ∧ rev.source = "api") ∧
     (∀ s : Nat, 1 ≤ selenium_rating s ∧ selenium_rating s ≤ 5) ∧
     (∀ text : String, leadingRun text = [] ∨ stripChars (leadingRun text) ≠ [] →
        selenium_username text ≠ "")) :=
  ⟨⟨by decide, by decide, by decide⟩,
   review_invariants_amended hashC fmtC rNone (by decide) (by decide) (by decide)⟩
